import Mathlib

/-!
Verification of the hotel-reservation backend's allocation core against its
specification. The definitions below are a shallow embedding of the
JavaScript source: rooms and bookings become structures, the Sequelize
queries become list filters, JS `Math.max`/`Math.min` over a non-empty
array becomes a fold, JS numbers used as money become exact rationals, and
dates are modelled at day granularity (the code normalises times with
`setHours(0,0,0,0)` and compares timestamps), with the calendar accessors
`getDay()`, `getMonth()` and `getDate()` carried as separate fields.
-/

namespace HotelRes

/-- Booking status values used by the booking model and controllers
(`'pending' | 'confirmed' | 'cancelled' | 'completed'`). -/
inductive BStatus where
  | pending
  | confirmed
  | cancelled
  | completed
deriving DecidableEq

/-- Payment status values (`'pending' | 'paid'`, `bookingController.js` sets
`paymentStatus: 'pending'` at creation, `adminController.js` queries `'paid'`). -/
inductive PayStatus where
  | pending
  | paid
deriving DecidableEq

/-- A room row: `roomNumber`, `floor`, `position`, `basePrice`, `isAvailable`
(the fields of the Room model that the booking logic reads). Floors and
positions are JS numbers used only arithmetically, so they are embedded as
integers; the price as an exact rational. -/
structure HRoom where
  number : Nat
  floor : Int
  position : Int
  basePrice : ℚ
  isAvailable : Bool
deriving DecidableEq

/-- A calendar date as the JS code consumes one: `days` is the linear day
index (timestamps normalised to midnight, used for `<`, `<=` and date
subtraction), `dow` is `getDay()` (0 = Sunday .. 6 = Saturday), `month` is
`getMonth()` (0 = January .. 11 = December), `dayOfMonth` is `getDate()`. -/
structure HDate where
  days : Int
  dow : Nat
  month : Nat
  dayOfMonth : Nat
deriving DecidableEq

/-- A booking row with the fields the controllers read and write. Check-in
and check-out are day indices; `rooms` is the stored list of room numbers. -/
structure HBooking where
  bookingId : Nat
  userId : Nat
  rooms : List Nat
  totalRooms : Nat
  travelTime : Int
  totalPrice : ℚ
  checkIn : Int
  checkOut : Int
  status : BStatus
  payStatus : PayStatus
deriving DecidableEq

/-- The persistent state the booking controllers touch: the room table and
the booking table. -/
structure HState where
  rooms : List HRoom
  bookings : List HBooking
deriving DecidableEq

/-- JS `Math.max(...l)` for a non-empty list (`0` is a dead default: every
caller guards against the empty list first). -/
def maxD : List Int → Int
  | [] => 0
  | x :: xs => xs.foldl max x

/-- JS `Math.min(...l)` for a non-empty list, same convention as `maxD`. -/
def minD : List Int → Int
  | [] => 0
  | x :: xs => xs.foldl min x

/-- `AlgorithmService.calculateTravelTime` (the service bundled in
`src/services/roomService.js`): `(maxFloor - 1) * VERTICAL_TIME +
(maxPos - minPos)` with `VERTICAL_TIME = 2`, and `0` for a missing or
empty room list. -/
def calculateTravelTime : List HRoom → Int
  | [] => 0
  | r :: rs =>
      (maxD ((r :: rs).map (·.floor)) - 1) * 2 +
        (maxD ((r :: rs).map (·.position)) - minD ((r :: rs).map (·.position)))

/-- `calculateHorizontalTime` of the backup `algorithmService.js`: the span
of positions, `0` for at most one room (sorting and taking the ends of the
sorted array is taking the minimum and maximum). -/
def calculateHorizontalTime (rooms : List HRoom) : Int :=
  if rooms.length ≤ 1 then 0
  else maxD (rooms.map (·.position)) - minD (rooms.map (·.position))

/-- `calculateVerticalTime` of the backup `algorithmService.js`: the span of
distinct floors times `VERTICAL_TIME = 2`, `0` for at most one room
(deduplicating with `Set` does not change the extremes). -/
def calculateVerticalTime (rooms : List HRoom) : Int :=
  if rooms.length ≤ 1 then 0
  else (maxD (rooms.map (·.floor)) - minD (rooms.map (·.floor))) * 2

/-- `calculateTravelTime` of the backup `algorithmService.js` (the legacy
floor-span variant): horizontal plus vertical time. -/
def calculateTravelTimeLegacy (rooms : List HRoom) : Int :=
  calculateHorizontalTime rooms + calculateVerticalTime rooms

/-- Position span of a room list (`maxPos - minPos`). -/
def posSpan (w : List HRoom) : Int :=
  maxD (w.map (·.position)) - minD (w.map (·.position))

section MaxMinLemmas

theorem le_foldl_max_init (l : List Int) : ∀ a : Int, a ≤ l.foldl max a := by
  induction l with
  | nil => intro a; exact le_refl a
  | cons x xs ih =>
      intro a
      exact le_trans (le_max_left a x) (ih (max a x))

theorem le_foldl_max_of_mem (l : List Int) :
    ∀ (a x : Int), x ∈ l → x ≤ l.foldl max a := by
  induction l with
  | nil => intro a x hx; cases hx
  | cons y ys ih =>
      intro a x hx
      rcases List.mem_cons.mp hx with h | h
      · subst h
        exact le_trans (le_max_right a x) (le_foldl_max_init ys (max a x))
      · exact ih (max a y) x h

theorem foldl_max_mem_or (l : List Int) :
    ∀ a : Int, l.foldl max a = a ∨ l.foldl max a ∈ l := by
  induction l with
  | nil => intro a; exact Or.inl rfl
  | cons x xs ih =>
      intro a
      rcases ih (max a x) with h | h
      · rcases max_choice a x with hm | hm
        · exact Or.inl (by rw [List.foldl_cons, h, hm])
        · refine Or.inr ?_
          rw [List.foldl_cons, h, hm]
          exact List.mem_cons_self x xs
      · exact Or.inr (List.mem_cons_of_mem x h)

theorem foldl_min_init_le (l : List Int) : ∀ a : Int, l.foldl min a ≤ a := by
  induction l with
  | nil => intro a; exact le_refl a
  | cons x xs ih =>
      intro a
      exact le_trans (ih (min a x)) (min_le_left a x)

theorem foldl_min_le_of_mem (l : List Int) :
    ∀ (a x : Int), x ∈ l → l.foldl min a ≤ x := by
  induction l with
  | nil => intro a x hx; cases hx
  | cons y ys ih =>
      intro a x hx
      rcases List.mem_cons.mp hx with h | h
      · subst h
        exact le_trans (foldl_min_init_le ys (min a x)) (min_le_right a x)
      · exact ih (min a y) x h

theorem foldl_min_mem_or (l : List Int) :
    ∀ a : Int, l.foldl min a = a ∨ l.foldl min a ∈ l := by
  induction l with
  | nil => intro a; exact Or.inl rfl
  | cons x xs ih =>
      intro a
      rcases ih (min a x) with h | h
      · rcases min_choice a x with hm | hm
        · exact Or.inl (by rw [List.foldl_cons, h, hm])
        · refine Or.inr ?_
          rw [List.foldl_cons, h, hm]
          exact List.mem_cons_self x xs
      · exact Or.inr (List.mem_cons_of_mem x h)

theorem maxD_mem {l : List Int} (h : l ≠ []) : maxD l ∈ l := by
  cases l with
  | nil => exact absurd rfl h
  | cons x xs =>
      rcases foldl_max_mem_or xs x with h' | h'
      · rw [maxD, h']; exact List.mem_cons_self x xs
      · rw [maxD]; exact List.mem_cons_of_mem x h'

theorem le_maxD {l : List Int} {x : Int} (h : x ∈ l) : x ≤ maxD l := by
  cases l with
  | nil => cases h
  | cons y ys =>
      rcases List.mem_cons.mp h with h' | h'
      · subst h'; exact le_foldl_max_init ys x
      · exact le_foldl_max_of_mem ys y x h'

theorem minD_mem {l : List Int} (h : l ≠ []) : minD l ∈ l := by
  cases l with
  | nil => exact absurd rfl h
  | cons x xs =>
      rcases foldl_min_mem_or xs x with h' | h'
      · rw [minD, h']; exact List.mem_cons_self x xs
      · rw [minD]; exact List.mem_cons_of_mem x h'

theorem minD_le {l : List Int} {x : Int} (h : x ∈ l) : minD l ≤ x := by
  cases l with
  | nil => cases h
  | cons y ys =>
      rcases List.mem_cons.mp h with h' | h'
      · subst h'; exact foldl_min_init_le ys x
      · exact foldl_min_le_of_mem ys y x h'

theorem maxD_congr {l₁ l₂ : List Int} (h₁ : l₁ ≠ []) (h₂ : l₂ ≠ [])
    (h : ∀ x : Int, x ∈ l₁ ↔ x ∈ l₂) : maxD l₁ = maxD l₂ :=
  le_antisymm (le_maxD ((h _).mp (maxD_mem h₁)))
    (le_maxD ((h _).mpr (maxD_mem h₂)))

theorem minD_congr {l₁ l₂ : List Int} (h₁ : l₁ ≠ []) (h₂ : l₂ ≠ [])
    (h : ∀ x : Int, x ∈ l₁ ↔ x ∈ l₂) : minD l₁ = minD l₂ :=
  le_antisymm (minD_le ((h _).mpr (minD_mem h₂)))
    (minD_le ((h _).mp (minD_mem h₁)))

theorem maxD_const {l : List Int} {c : Int} (hne : l ≠ [])
    (h : ∀ x ∈ l, x = c) : maxD l = c :=
  h _ (maxD_mem hne)

theorem minD_const {l : List Int} {c : Int} (hne : l ≠ [])
    (h : ∀ x ∈ l, x = c) : minD l = c :=
  h _ (minD_mem hne)

end MaxMinLemmas

theorem calculateTravelTime_ne_nil {l : List HRoom} (h : l ≠ []) :
    calculateTravelTime l =
      (maxD (l.map (·.floor)) - 1) * 2 +
        (maxD (l.map (·.position)) - minD (l.map (·.position))) := by
  cases l with
  | nil => exact absurd rfl h
  | cons r rs => rfl

/-- On a room list whose floors are all `fr`, the travel time splits into the
constant vertical part and the position span. -/
theorem calculateTravelTime_uniform_floor {w : List HRoom} {fr : Int}
    (hne : w ≠ []) (hf : ∀ r ∈ w, r.floor = fr) :
    calculateTravelTime w = (fr - 1) * 2 + posSpan w := by
  rw [calculateTravelTime_ne_nil hne, posSpan]
  have hmap : w.map (·.floor) ≠ [] := by
    simpa [List.map_eq_nil_iff] using hne
  have : maxD (w.map (·.floor)) = fr := by
    refine maxD_const hmap ?_
    intro x hx
    rcases List.mem_map.mp hx with ⟨r, hr, hrx⟩
    rw [← hrx]; exact hf r hr
  rw [this]

/-- One step of the strict-improvement minimum search both loops of
`algorithmService.js` use (`if (time < bestTime) { best = c }` starting from
`best = null`, `bestTime = Infinity`). -/
def pickBetter (best : Option (List HRoom)) (c : List HRoom) : Option (List HRoom) :=
  match best with
  | none => some c
  | some b => if calculateTravelTime c < calculateTravelTime b then some c else some b

/-- The first candidate of minimal travel time, `none` on an empty candidate
list. -/
def chooseMin (cands : List (List HRoom)) : Option (List HRoom) :=
  cands.foldl pickBetter none

/-- The sliding windows `availableRooms.slice(i, i + numRooms)` for
`i = 0 .. length - numRooms` (the JS loop body never runs when
`length < numRooms`, its bound is negative). -/
def windows (g : List HRoom) (n : Nat) : List (List HRoom) :=
  if g.length < n then []
  else (List.range (g.length - n + 1)).map fun i => (g.drop i).take n

/-- `AlgorithmService.findBestOnSingleFloor`: the minimal-travel-time window
of width `numRooms`, ties to the earliest window. -/
def findBestOnSingleFloor (g : List HRoom) (n : Nat) : Option (List HRoom) :=
  chooseMin (windows g n)

/-- Priority 1 of `AlgorithmService.findOptimalRooms`: walk the floor groups
in the given order and return the best window of the first group holding at
least `numRooms` rooms. -/
def sameFloorPass : List (List HRoom) → Nat → Option (List HRoom)
  | [], _ => none
  | g :: rest, n =>
      if n ≤ g.length then
        match findBestOnSingleFloor g n with
        | some comb => some comb
        | none => sameFloorPass rest n
      else sameFloorPass rest n

/-- The recursive `generateCombinations(start, current)` of
`AlgorithmService.findOptimalRooms`, as the list of the length-`n` lists it
evaluates, in evaluation order. The JS recursion passes the current floor
index `i` back as `start` and restarts the inner room index `j` at `0`, so
a room may be picked again; the fuel argument mirrors the recursion depth
(`current` grows by one room per level and the recursion stops at `n`). -/
def genAux (byFloor : List (List HRoom)) (n : Nat) :
    Nat → Nat → List HRoom → List (List HRoom)
  | 0, _, current => if current.length = n then [current] else []
  | fuel + 1, start, current =>
      if current.length = n then [current]
      else
        ((List.range byFloor.length).drop start).flatMap fun i =>
          (byFloor.getD i []).flatMap fun room =>
            genAux byFloor n fuel i (current ++ [room])

/-- All candidate lists the brute-force search of
`AlgorithmService.findOptimalRooms` evaluates. -/
def genCombos (byFloor : List (List HRoom)) (n : Nat) : List (List HRoom) :=
  genAux byFloor n n 0 []

/-- `[combination[0].floor]` of the same-floor result. -/
def headFloors : List HRoom → List Int
  | [] => []
  | c :: _ => [c.floor]

/-- Insertion of an integer into a sorted list (ascending). -/
def insertInt (x : Int) : List Int → List Int
  | [] => [x]
  | y :: ys => if x ≤ y then x :: y :: ys else y :: insertInt x ys

/-- Ascending insertion sort on integers. -/
def sortInts (l : List Int) : List Int :=
  l.foldr insertInt []

/-- `[...new Set(rooms.map(r => r.floor))].sort((a, b) => a - b)`: the
distinct floors of a room list in ascending order. -/
def uniqueSortedFloors (rooms : List HRoom) : List Int :=
  sortInts ((rooms.map (·.floor)).eraseDups)

/-- The record `findOptimalRooms` resolves with on success. -/
structure SelResult where
  rooms : List HRoom
  travelTime : Int
  floors : List Int
  strategy : String
deriving DecidableEq

/-- `AlgorithmService.findOptimalRooms`: same-floor priority first, then the
bounded brute-force search over all floors, `null` when fewer free rooms
than requested exist. -/
def findOptimalRooms (byFloor : List (List HRoom)) (n : Nat) : Option SelResult :=
  match sameFloorPass byFloor n with
  | some comb =>
      some ⟨comb, calculateTravelTime comb, headFloors comb, "same_floor"⟩
  | none =>
      if byFloor.flatten.length < n then none
      else
        match chooseMin (genCombos byFloor n) with
        | some best =>
            some ⟨best, calculateTravelTime best, uniqueSortedFloors best, "across_floors"⟩
        | none => none

section ChooseMinLemmas

/-- Folding `pickBetter` from a non-`none` accumulator yields the first
minimum among the accumulator and the candidates. -/
theorem foldl_pickBetter_spec (cands : List (List HRoom)) :
    ∀ b : List HRoom,
      ∃ c, cands.foldl pickBetter (some b) = some c ∧
        (c = b ∨ c ∈ cands) ∧
        calculateTravelTime c ≤ calculateTravelTime b ∧
        ∀ d ∈ cands, calculateTravelTime c ≤ calculateTravelTime d := by
  induction cands with
  | nil =>
      intro b
      exact ⟨b, rfl, Or.inl rfl, le_refl _, by intro d hd; cases hd⟩
  | cons x xs ih =>
      intro b
      by_cases hlt : calculateTravelTime x < calculateTravelTime b
      · obtain ⟨c, hc, hmem, hle, hall⟩ := ih x
        refine ⟨c, ?_, ?_, le_trans hle (le_of_lt hlt), ?_⟩
        · simpa [pickBetter, hlt] using hc
        · rcases hmem with h | h
          · exact Or.inr (h ▸ List.mem_cons_self x xs)
          · exact Or.inr (List.mem_cons_of_mem x h)
        · intro d hd
          rcases List.mem_cons.mp hd with h | h
          · exact h ▸ hle
          · exact hall d h
      · obtain ⟨c, hc, hmem, hle, hall⟩ := ih b
        refine ⟨c, ?_, ?_, hle, ?_⟩
        · simpa [pickBetter, hlt] using hc
        · rcases hmem with h | h
          · exact Or.inl h
          · exact Or.inr (List.mem_cons_of_mem x h)
        · intro d hd
          rcases List.mem_cons.mp hd with h | h
          · exact h ▸ le_trans hle (not_lt.mp hlt)
          · exact hall d h

theorem chooseMin_isSome {cands : List (List HRoom)} (h : cands ≠ []) :
    ∃ c, chooseMin cands = some c := by
  cases cands with
  | nil => exact absurd rfl h
  | cons x xs =>
      obtain ⟨c, hc, _, _, _⟩ := foldl_pickBetter_spec xs x
      exact ⟨c, hc⟩

theorem chooseMin_spec {cands : List (List HRoom)} {c : List HRoom}
    (h : chooseMin cands = some c) :
    c ∈ cands ∧ ∀ d ∈ cands, calculateTravelTime c ≤ calculateTravelTime d := by
  cases cands with
  | nil => cases h
  | cons x xs =>
      obtain ⟨c', hc', hmem, hle, hall⟩ := foldl_pickBetter_spec xs x
      have hcc : c' = c := by
        have : chooseMin (x :: xs) = some c' := hc'
        rw [h] at this
        exact (Option.some.injEq _ _ ▸ this).symm
      subst hcc
      constructor
      · rcases hmem with h' | h'
        · exact h' ▸ List.mem_cons_self x xs
        · exact List.mem_cons_of_mem x h'
      · intro d hd
        rcases List.mem_cons.mp hd with h' | h'
        · exact h' ▸ hle
        · exact hall d h'

end ChooseMinLemmas

section WindowLemmas

theorem mem_windows_iff {g : List HRoom} {n : Nat} {w : List HRoom}
    (hn : n ≤ g.length) :
    w ∈ windows g n ↔ ∃ i, i + n ≤ g.length ∧ w = (g.drop i).take n := by
  unfold windows
  rw [if_neg (not_lt.mpr hn)]
  simp only [List.mem_map, List.mem_range]
  constructor
  · rintro ⟨i, hi, rfl⟩
    exact ⟨i, by omega, rfl⟩
  · rintro ⟨i, hi, rfl⟩
    exact ⟨i, by omega, rfl⟩

theorem windows_ne_nil {g : List HRoom} {n : Nat} (hn : n ≤ g.length) :
    windows g n ≠ [] := by
  unfold windows
  rw [if_neg (not_lt.mpr hn)]
  have : (List.range (g.length - n + 1)).length = g.length - n + 1 :=
    List.length_range _
  intro hcontra
  have := congrArg List.length hcontra
  simp at this

theorem window_length {g : List HRoom} {n i : Nat} (h : i + n ≤ g.length) :
    ((g.drop i).take n).length = n := by
  simp only [List.length_take, List.length_drop]
  omega

theorem window_subset {g : List HRoom} {n i : Nat} :
    ∀ r ∈ (g.drop i).take n, r ∈ g :=
  fun _ hr => List.mem_of_mem_drop (List.mem_of_mem_take hr)

theorem findBestOnSingleFloor_spec {g : List HRoom} {n : Nat}
    (hn : n ≤ g.length) :
    ∃ i, findBestOnSingleFloor g n = some ((g.drop i).take n) ∧
      i + n ≤ g.length ∧
      ∀ j, j + n ≤ g.length →
        calculateTravelTime ((g.drop i).take n) ≤
          calculateTravelTime ((g.drop j).take n) := by
  obtain ⟨c, hc⟩ := chooseMin_isSome (windows_ne_nil hn)
  obtain ⟨hmem, hall⟩ := chooseMin_spec hc
  obtain ⟨i, hi, rfl⟩ := (mem_windows_iff hn).mp hmem
  refine ⟨i, hc, hi, ?_⟩
  intro j hj
  exact hall _ ((mem_windows_iff hn).mpr ⟨j, hj, rfl⟩)

end WindowLemmas

/-- The same-floor pass resolves on the first floor group holding enough
rooms, with the best window of that group. -/
theorem sameFloorPass_spec (byFloor : List (List HRoom)) (n : Nat)
    (hex : ∃ g ∈ byFloor, n ≤ g.length) :
    ∃ pre g post comb,
      byFloor = pre ++ g :: post ∧
      (∀ g' ∈ pre, g'.length < n) ∧
      n ≤ g.length ∧
      findBestOnSingleFloor g n = some comb ∧
      sameFloorPass byFloor n = some comb := by
  induction byFloor with
  | nil => simp at hex
  | cons g₀ rest ih =>
      by_cases h0 : n ≤ g₀.length
      · obtain ⟨i, hsome, _, _⟩ := findBestOnSingleFloor_spec h0
        refine ⟨[], g₀, rest, (g₀.drop i).take n, rfl, by simp, h0, hsome, ?_⟩
        simp only [sameFloorPass, if_pos h0, hsome]
      · have hex' : ∃ g ∈ rest, n ≤ g.length := by
          rcases hex with ⟨g, hg, hlen⟩
          rcases List.mem_cons.mp hg with h' | h'
          · exact absurd (h' ▸ hlen) h0
          · exact ⟨g, h', hlen⟩
        obtain ⟨pre, g, post, comb, heq, hpre, hg, hfb, hsp⟩ := ih hex'
        refine ⟨g₀ :: pre, g, post, comb, by rw [heq]; rfl, ?_, hg, hfb, ?_⟩
        · intro g' hg'
          rcases List.mem_cons.mp hg' with h' | h'
          · exact h' ▸ not_le.mp h0
          · exact hpre g' h'
        · simp only [sameFloorPass, if_neg h0]
          exact hsp

/-- The `ORDER BY floor ASC, position ASC` key used by every
`Room.findAll` in the booking path. -/
def roomLe (a b : HRoom) : Bool :=
  decide (a.floor < b.floor) ||
    (a.floor == b.floor && decide (a.position ≤ b.position))

/-- Insertion of a room into a list sorted by `roomLe`. -/
def insertRoom (r : HRoom) : List HRoom → List HRoom
  | [] => [r]
  | x :: xs => if roomLe r x then r :: x :: xs else x :: insertRoom r xs

/-- The room table ordered by floor then position, as the database returns
it to the controllers. -/
def sortRooms (l : List HRoom) : List HRoom :=
  l.foldr insertRoom []

theorem mem_insertRoom {x r : HRoom} :
    ∀ {l : List HRoom}, x ∈ insertRoom r l ↔ x = r ∨ x ∈ l := by
  intro l
  induction l with
  | nil => simp [insertRoom]
  | cons y ys ih =>
      by_cases h : roomLe r y
      · simp [insertRoom, h]
      · simp only [insertRoom, if_neg h, List.mem_cons, ih]
        tauto

theorem mem_sortRooms {x : HRoom} : ∀ {l : List HRoom}, x ∈ sortRooms l ↔ x ∈ l := by
  intro l
  induction l with
  | nil => simp [sortRooms]
  | cons y ys ih =>
      simp only [sortRooms, List.foldr_cons, mem_insertRoom, List.mem_cons]
      rw [show ys.foldr insertRoom [] = sortRooms ys from rfl, ih]

/-- The `Booking.findAll` of `BookingService.findOptimalRooms`: bookings
with `checkInDate <= candidate checkOut`, `checkOutDate >= candidate
checkIn` and `status: 'confirmed'`. -/
def conflictingBookings (bs : List HBooking) (ci co : Int) : List HBooking :=
  bs.filter fun b =>
    decide (b.checkIn ≤ co) && decide (ci ≤ b.checkOut) &&
      decide (b.status = BStatus.confirmed)

/-- The set of room numbers collected from the conflicting bookings. -/
def bookedRoomNumbers (bs : List HBooking) (ci co : Int) : List Nat :=
  (conflictingBookings bs ci co).flatMap (·.rooms)

/-- The availability computation of `BookingService.findOptimalRooms`: rooms
flagged `isAvailable`, ordered, minus those listed by a conflicting
booking. -/
def trulyAvailableRooms (rooms : List HRoom) (bs : List HBooking)
    (ci co : Int) : List HRoom :=
  (sortRooms (rooms.filter (·.isAvailable))).filter fun r =>
    !(decide (r.number ∈ bookedRoomNumbers bs ci co))

/-- Strict half-open overlap as the specification defines it: `[a,b)` and
`[c,d)` overlap iff `a < d && c < b`. -/
def overlapStrict (a b c d : Int) : Prop :=
  a < d ∧ c < b

/-- The specification's notion of a free room (modelled from the spec's
words, for comparison with `trulyAvailableRooms`): no booking with status
pending or confirmed containing the room number overlaps the candidate
range strictly. -/
def specRoomFree (r : HRoom) (bs : List HBooking) (ci co : Int) : Prop :=
  ∀ b ∈ bs, (b.status = BStatus.pending ∨ b.status = BStatus.confirmed) →
    r.number ∈ b.rooms → ¬ overlapStrict b.checkIn b.checkOut ci co

instance (a b c d : Int) : Decidable (overlapStrict a b c d) := by
  unfold overlapStrict
  exact inferInstance

instance (r : HRoom) (bs : List HBooking) (ci co : Int) :
    Decidable (specRoomFree r bs ci co) := by
  unfold specRoomFree
  exact inferInstance

/-- Membership in the computed free set, characterised. -/
theorem mem_trulyAvailableRooms {rooms : List HRoom} {bs : List HBooking}
    {ci co : Int} {r : HRoom} :
    r ∈ trulyAvailableRooms rooms bs ci co ↔
      r ∈ rooms ∧ r.isAvailable = true ∧
        ∀ b ∈ bs, b.status = BStatus.confirmed → b.checkIn ≤ co →
          ci ≤ b.checkOut → r.number ∉ b.rooms := by
  unfold trulyAvailableRooms
  rw [List.mem_filter, mem_sortRooms, List.mem_filter]
  simp only [bookedRoomNumbers, conflictingBookings, List.mem_flatMap,
    List.mem_filter, Bool.not_eq_true', decide_eq_false_iff_not,
    Bool.and_eq_true, decide_eq_true_eq]
  constructor
  · rintro ⟨⟨hmem, hav⟩, hno⟩
    refine ⟨hmem, hav, ?_⟩
    intro b hb hst hle hge hroom
    exact hno ⟨b, ⟨hb, ⟨hle, hge⟩, hst⟩, hroom⟩
  · rintro ⟨hmem, hav, hall⟩
    refine ⟨⟨hmem, hav⟩, ?_⟩
    rintro ⟨b, ⟨hb, ⟨hle, hge⟩, hst⟩, hroom⟩
    exact hall b hb hst hle hge hroom

/-- `parseFloat(x.toFixed(2))`: rounding to two decimal places (half away
from zero for the non-negative amounts at hand). -/
def roundTo2 (q : ℚ) : ℚ :=
  (Int.floor (q * 100 + 1 / 2) : ℚ) / 100

/-- The per-room nightly rate of `bookingController.bookRooms`: the base
price, times 1.2 when the check-in day is Friday (5) or Saturday (6). No
other factor is applied by the controller. -/
def controllerPerNight (room : HRoom) (checkIn : HDate) : ℚ :=
  if checkIn.dow = 5 ∨ checkIn.dow = 6 then room.basePrice * (6 / 5)
  else room.basePrice

/-- The price loop of `bookingController.bookRooms` (lines 94-108): sum the
weekend-adjusted rate times the nights over the selected rooms, then round
to two decimals. -/
def bookRoomsPrice (rooms : List HRoom) (checkIn : HDate) (nights : Int) : ℚ :=
  roundTo2 (rooms.foldl (fun acc room => acc + controllerPerNight room checkIn * nights) 0)

/-- The per-room nightly rate of `BookingService.calculateTotalPrice`:
weekend factor 1.2 for a Friday/Saturday check-in, then 1.3 for a check-in
in December 20-31, then 1.3 for a check-in in January 1-5. -/
def servicePerNight (room : HRoom) (checkIn : HDate) : ℚ :=
  let p1 := if checkIn.dow = 5 ∨ checkIn.dow = 6 then room.basePrice * (6 / 5)
            else room.basePrice
  let p2 := if checkIn.month = 11 ∧ 20 ≤ checkIn.dayOfMonth then p1 * (13 / 10) else p1
  if checkIn.month = 0 ∧ checkIn.dayOfMonth ≤ 5 then p2 * (13 / 10) else p2

/-- `BookingService.calculateTotalPrice` (in `src/services/roomService.js`):
nights from the date difference, per-room surcharged rate, summed and
rounded to two decimals. -/
def calculateTotalPrice (rooms : List HRoom) (checkIn checkOut : HDate) : ℚ :=
  roundTo2 (rooms.foldl
    (fun acc room =>
      acc + servicePerNight room checkIn * ((checkOut.days - checkIn.days : Int) : ℚ)) 0)

/-- Per-night price as §4.4 of the specification words it: base rate, times
1.20 for a Friday/Saturday check-in, times 1.30 for a check-in in December
20-31 or January 1-5, both factors multiplicative (modelled from the
spec's words, for comparison with the code's pricing). -/
def specPerNight (base : ℚ) (d : HDate) : ℚ :=
  base * (if d.dow = 5 ∨ d.dow = 6 then 6 / 5 else 1) *
    (if (d.month = 11 ∧ 20 ≤ d.dayOfMonth) ∨ (d.month = 0 ∧ d.dayOfMonth ≤ 5)
      then 13 / 10 else 1)

/-- `Helpers.isValidDateRange` (`src/utils/helpers.js` lines 175-186, with
`daysBetween` reducing to the day difference at day granularity); the
source defaults `minNights = 1`, `maxNights = 30`. This helper is where the
30-night cap lives; no booking route calls it. -/
def isValidDateRange (startD endD today minNights maxNights : Int) : Bool :=
  if startD < today then false
  else if endD ≤ startD then false
  else decide (minNights ≤ endD - startD) && decide (endD - startD ≤ maxNights)

/-- The validation prefix of `bookingController.bookRooms` (lines 14-46):
room count in 1..5, check-in not in the past, check-out after check-in.
`none` means the request passes. The `bookingValidation` middleware checks
exactly the same three conditions. -/
def validateBookingInput (numRooms : Nat) (ci co today : Int) : Option String :=
  if numRooms < 1 ∨ 5 < numRooms then some "Number of rooms must be between 1 and 5"
  else if ci < today then some "Check-in date cannot be in the past"
  else if co ≤ ci then some "Check-out date must be after check-in date"
  else none

/-- The inline travel-time computation of `bookingController.bookRooms`
(lines 78-92): `0` for a single room, `(maxPos - minPos) * 2` when all
selected rooms share a floor, `count * 3 + 5` otherwise. -/
def controllerTravelTime (sel : List HRoom) : Int :=
  if sel.length ≤ 1 then 0
  else
    match sel with
    | [] => 0
    | r :: _ =>
        if sel.all fun x => x.floor == r.floor then
          (maxD (sel.map (·.position)) - minD (sel.map (·.position))) * 2
        else (sel.length : Int) * 3 + 5

/-- Outcome of a booking request: a 400-class rejection with its message, or
the created booking. -/
inductive BookOutcome where
  | invalid (msg : String)
  | ok (b : HBooking)
deriving DecidableEq

/-- `bookingController.bookRooms`: validate, read the flagged-available
rooms in floor/position order, take the first `numRooms` of them, compute
the inline travel time and the weekend-only price, persist a booking with
status `'confirmed'` and payment status `'pending'`, and flip the chosen
rooms' `isAvailable` to false. `newId` stands for the generated booking
id. -/
def selectedRooms (st : HState) (numRooms : Nat) : List HRoom :=
  (sortRooms (st.rooms.filter (·.isAvailable))).take numRooms

/-- The booking row `bookRooms` persists on success (`Booking.create` with
the computed fields). -/
def newBooking (st : HState) (userId numRooms : Nat) (ci co : HDate)
    (newId : Nat) : HBooking :=
  { bookingId := newId, userId := userId,
    rooms := (selectedRooms st numRooms).map (·.number),
    totalRooms := numRooms,
    travelTime := controllerTravelTime (selectedRooms st numRooms),
    totalPrice := bookRoomsPrice (selectedRooms st numRooms) ci (co.days - ci.days),
    checkIn := ci.days, checkOut := co.days,
    status := BStatus.confirmed, payStatus := PayStatus.pending }

def bookRooms (st : HState) (userId numRooms : Nat) (ci co : HDate)
    (today : Int) (newId : Nat) : HState × BookOutcome :=
  match validateBookingInput numRooms ci.days co.days today with
  | some m => (st, BookOutcome.invalid m)
  | none =>
      if st.rooms.length = 0 then
        (st, BookOutcome.invalid "No rooms available in the system.")
      else if (sortRooms (st.rooms.filter (·.isAvailable))).length < numRooms then
        (st, BookOutcome.invalid "Not enough available rooms")
      else
        ({ rooms := st.rooms.map fun r =>
             if r.number ∈ (selectedRooms st numRooms).map (·.number) then
               { r with isAvailable := false } else r,
           bookings := st.bookings ++ [newBooking st userId numRooms ci co newId] },
         BookOutcome.ok (newBooking st userId numRooms ci co newId))

/-- Outcome of `bookingController.cancelBooking`. -/
inductive CancelOutcome where
  | notFound
  | alreadyCancelled
  | success
deriving DecidableEq

/-- `bookingController.cancelBooking`: look the booking up by id and user,
reject when absent or already cancelled, otherwise set its status to
`'cancelled'` and flip its rooms' `isAvailable` back to true. The check-in
date is never consulted. -/
def cancelBooking (st : HState) (id uid : Nat) : HState × CancelOutcome :=
  match st.bookings.find? (fun b => b.bookingId == id && b.userId == uid) with
  | none => (st, CancelOutcome.notFound)
  | some b =>
      if b.status = BStatus.cancelled then (st, CancelOutcome.alreadyCancelled)
      else
        ({ rooms := st.rooms.map fun r =>
             if r.number ∈ b.rooms then { r with isAvailable := true } else r,
           bookings := st.bookings.map fun x =>
             if x.bookingId == id && x.userId == uid then
               { x with status := BStatus.cancelled } else x },
         CancelOutcome.success)

/-! Concrete fixtures: rooms of the reference examples and small states used
to evaluate the embedded operations. -/

def room101 : HRoom := ⟨101, 1, 1, 100, true⟩

def room102 : HRoom := ⟨102, 1, 2, 100, true⟩

def room105 : HRoom := ⟨105, 1, 5, 100, true⟩

def room106 : HRoom := ⟨106, 1, 6, 100, true⟩

def room201 : HRoom := ⟨201, 2, 1, 100, true⟩

def room202 : HRoom := ⟨202, 2, 2, 100, true⟩

def room203 : HRoom := ⟨203, 2, 3, 100, true⟩

/-- A lone free room on floor 2, position 5, for the brute-force search. -/
def room205far : HRoom := ⟨205, 2, 5, 100, true⟩

/-- Reference example 1: rooms 101, 102, 105, 106 on floor 1. -/
def exampleRoomsA : List HRoom := [room101, room102, room105, room106]

/-- Reference example 2: rooms 201, 202 on floor 2. -/
def exampleRoomsB : List HRoom := [room201, room202]

/-- A confirmed booking of room 101 for days `[10, 20)`. -/
def bookingPast : HBooking := ⟨1, 7, [101], 1, 0, 100, 10, 20, BStatus.confirmed, PayStatus.pending⟩

/-- A pending booking of room 101 for days `[12, 18)`. -/
def bookingPend : HBooking := ⟨2, 7, [101], 1, 0, 100, 12, 18, BStatus.pending, PayStatus.pending⟩

/-! Claim theorems. -/

/-- C2: for every non-empty room list, `calculateTravelTime` equals
`(maxFloor - 1) * 2 + (maxPos - minPos)`, where `maxFloor` is the greatest
floor and `maxPos`/`minPos` the greatest/least position occurring in the
list. -/
theorem claim_travelTime_formula (rooms : List HRoom) (h : rooms ≠ []) :
    ∃ mf mp np : Int,
      (mf ∈ rooms.map (·.floor) ∧ ∀ f ∈ rooms.map (·.floor), f ≤ mf) ∧
      (mp ∈ rooms.map (·.position) ∧ ∀ p ∈ rooms.map (·.position), p ≤ mp) ∧
      (np ∈ rooms.map (·.position) ∧ ∀ p ∈ rooms.map (·.position), np ≤ p) ∧
      calculateTravelTime rooms = (mf - 1) * 2 + (mp - np) := by
  have hf : rooms.map (·.floor) ≠ [] := by simpa [List.map_eq_nil_iff] using h
  have hp : rooms.map (·.position) ≠ [] := by simpa [List.map_eq_nil_iff] using h
  exact ⟨maxD (rooms.map (·.floor)), maxD (rooms.map (·.position)),
    minD (rooms.map (·.position)),
    ⟨maxD_mem hf, fun _ hh => le_maxD hh⟩,
    ⟨maxD_mem hp, fun _ hh => le_maxD hh⟩,
    ⟨minD_mem hp, fun _ hh => minD_le hh⟩,
    calculateTravelTime_ne_nil h⟩

/-- C2 witness: the formula at the two reference examples; rooms
{101, 102, 105, 106} cost 5 and rooms {201, 202} cost 3. -/
theorem claim_travelTime_formula_witness :
    calculateTravelTime exampleRoomsA = 5 ∧
    calculateTravelTime exampleRoomsB = 3 ∧
    (∃ mf mp np : Int,
      (mf ∈ exampleRoomsB.map (·.floor) ∧ ∀ f ∈ exampleRoomsB.map (·.floor), f ≤ mf) ∧
      (mp ∈ exampleRoomsB.map (·.position) ∧ ∀ p ∈ exampleRoomsB.map (·.position), p ≤ mp) ∧
      (np ∈ exampleRoomsB.map (·.position) ∧ ∀ p ∈ exampleRoomsB.map (·.position), np ≤ p) ∧
      calculateTravelTime exampleRoomsB = (mf - 1) * 2 + (mp - np)) :=
  ⟨by decide, by decide, claim_travelTime_formula exampleRoomsB (by decide)⟩

/-- C9 (amended): both travel-time variants are invariant under permutation
of the room list; but a single room costs `(floor - 1) * 2` under the live
`calculateTravelTime` (zero only on floor 1), while the legacy backup
variant gives 0 for any single room. -/
theorem claim_travelTime_symmetry :
    (∀ l₁ l₂ : List HRoom, l₁.Perm l₂ →
        calculateTravelTime l₁ = calculateTravelTime l₂) ∧
    (∀ r : HRoom, calculateTravelTime [r] = (r.floor - 1) * 2) ∧
    (∀ l₁ l₂ : List HRoom, l₁.Perm l₂ →
        calculateTravelTimeLegacy l₁ = calculateTravelTimeLegacy l₂) ∧
    (∀ r : HRoom, calculateTravelTimeLegacy [r] = 0) := by
  have hne : ∀ {l₁ l₂ : List HRoom}, l₁.Perm l₂ → l₁ ≠ [] → l₂ ≠ [] := by
    intro l₁ l₂ hperm h1 hc
    subst hc
    exact h1 hperm.eq_nil
  have hmapne : ∀ {l : List HRoom} (f : HRoom → Int), l ≠ [] → l.map f ≠ [] := by
    intro l f h
    simpa [List.map_eq_nil_iff] using h
  refine ⟨?_, ?_, ?_, ?_⟩
  · intro l₁ l₂ hperm
    by_cases h1 : l₁ = []
    · subst h1
      rw [hperm.symm.eq_nil]
    · have h2 : l₂ ≠ [] := hne hperm h1
      rw [calculateTravelTime_ne_nil h1, calculateTravelTime_ne_nil h2,
        maxD_congr (hmapne _ h1) (hmapne _ h2) fun x => (hperm.map (·.floor)).mem_iff,
        maxD_congr (hmapne _ h1) (hmapne _ h2) fun x => (hperm.map (·.position)).mem_iff,
        minD_congr (hmapne _ h1) (hmapne _ h2) fun x => (hperm.map (·.position)).mem_iff]
  · intro r
    simp [calculateTravelTime, maxD, minD]
  · intro l₁ l₂ hperm
    unfold calculateTravelTimeLegacy calculateHorizontalTime calculateVerticalTime
    rw [hperm.length_eq]
    by_cases hl : l₂.length ≤ 1
    · simp only [if_pos hl]
    · have h2 : l₂ ≠ [] := by
        intro hc; rw [hc] at hl; simp at hl
      have h1 : l₁ ≠ [] := hne hperm.symm h2
      simp only [if_neg hl]
      rw [maxD_congr (hmapne _ h1) (hmapne _ h2) fun x => (hperm.map (·.position)).mem_iff,
        minD_congr (hmapne _ h1) (hmapne _ h2) fun x => (hperm.map (·.position)).mem_iff,
        maxD_congr (hmapne _ h1) (hmapne _ h2) fun x => (hperm.map (·.floor)).mem_iff,
        minD_congr (hmapne _ h1) (hmapne _ h2) fun x => (hperm.map (·.floor)).mem_iff]
  · intro r
    simp [calculateTravelTimeLegacy, calculateHorizontalTime, calculateVerticalTime]

/-- C9 counterexample: the single room 201 (floor 2) has live travel time 2,
not 0. -/
theorem claim_travelTime_single_cex :
    calculateTravelTime [room201] = 2 ∧ calculateTravelTime [room201] ≠ 0 := by
  decide

/-- C4 failing input: floors `[[101 (pos 1)], [205 (pos 5)]]` and a request
for 2 rooms force the cross-floor brute force, which picks room 101 twice
(travel time 0): the returned list has a repeated room number. -/
theorem claim_duplicate_room_selected :
    findOptimalRooms [[room101], [room205far]] 2 =
      some ⟨[room101, room101], 0, [1], "across_floors"⟩ ∧
    ¬ (([room101, room101].map (·.number)).Nodup) := by
  decide

/-- C1 (amended): the availability computation of
`BookingService.findOptimalRooms` treats a room as free iff its
`isAvailable` flag is set and no booking with status `'confirmed'` (pending
bookings do not block) whose room list contains its number satisfies
`bookingCheckIn ≤ candidateCheckOut` and `candidateCheckIn ≤
bookingCheckOut` — a closed-interval test, so a booking checking out on the
candidate check-in day still blocks. -/
theorem claim_availability_characterization (rooms : List HRoom)
    (bs : List HBooking) (ci co : Int) (r : HRoom) :
    r ∈ trulyAvailableRooms rooms bs ci co ↔
      r ∈ rooms ∧ r.isAvailable = true ∧
        ∀ b ∈ bs, b.status = BStatus.confirmed → b.checkIn ≤ co →
          ci ≤ b.checkOut → r.number ∉ b.rooms :=
  mem_trulyAvailableRooms

/-- C1 counterexample: a confirmed booking of room 101 over `[10, 20)` does
not overlap `[20, 30)` in the spec's strict half-open sense, yet the code
blocks the room; and a pending booking over `[12, 18)` does overlap
`[10, 30)`, yet the code leaves the room free. -/
theorem claim_availability_cex :
    (specRoomFree room101 [bookingPast] 20 30 ∧
      room101 ∉ trulyAvailableRooms [room101] [bookingPast] 20 30) ∧
    (¬ specRoomFree room101 [bookingPend] 10 30 ∧
      room101 ∈ trulyAvailableRooms [room101] [bookingPend] 10 30) := by
  decide

/-- Saturday, December 25 (day index 0 is arbitrary). -/
def dateSatDec25 : HDate := ⟨0, 6, 11, 25⟩

/-- Two days after `dateSatDec25` (a 2-night stay). -/
def dateMonDec27 : HDate := ⟨2, 1, 11, 27⟩

/-- An arbitrary non-weekend, non-peak check-in day (day 0). -/
def dateOrigin : HDate := ⟨0, 1, 5, 10⟩

/-- Two days after `dateOrigin`. -/
def dateTwo : HDate := ⟨2, 3, 5, 12⟩

/-- Forty days after `dateOrigin` (a 40-night stay). -/
def dateForty : HDate := ⟨40, 6, 6, 19⟩

/-- A state holding the single free room 101 and no bookings. -/
def stateOneRoom : HState := ⟨[room101], []⟩

section PricingLemmas

theorem foldl_add_sum (f : HRoom → ℚ) (l : List HRoom) :
    ∀ a : ℚ, l.foldl (fun acc r => acc + f r) a = a + (l.map f).sum := by
  induction l with
  | nil => intro a; simp
  | cons x xs ih =>
      intro a
      rw [List.foldl_cons, ih (a + f x)]
      simp [add_assoc]

/-- The per-room rate of `BookingService.calculateTotalPrice` agrees with
the specification's multiplicative form. -/
theorem servicePerNight_eq_spec (room : HRoom) (d : HDate) :
    servicePerNight room d = specPerNight room.basePrice d := by
  unfold servicePerNight specPerNight
  by_cases hdec : d.month = 11 ∧ 20 ≤ d.dayOfMonth
  · have hjan : ¬(d.month = 0 ∧ d.dayOfMonth ≤ 5) := by omega
    rw [if_neg hjan, if_pos hdec, if_pos (Or.inl hdec)]
    by_cases hw : d.dow = 5 ∨ d.dow = 6
    · rw [if_pos hw, if_pos hw]; try ring
    · rw [if_neg hw, if_neg hw]; try ring
  · by_cases hjan : d.month = 0 ∧ d.dayOfMonth ≤ 5
    · rw [if_pos hjan, if_neg hdec, if_pos (Or.inr hjan)]
      by_cases hw : d.dow = 5 ∨ d.dow = 6
      · rw [if_pos hw, if_pos hw]; try ring
      · rw [if_neg hw, if_neg hw]; try ring
    · have hor : ¬((d.month = 11 ∧ 20 ≤ d.dayOfMonth) ∨
          (d.month = 0 ∧ d.dayOfMonth ≤ 5)) := by tauto
      rw [if_neg hjan, if_neg hdec, if_neg hor]
      by_cases hw : d.dow = 5 ∨ d.dow = 6
      · rw [if_pos hw, if_pos hw]; try ring
      · rw [if_neg hw, if_neg hw]; try ring

end PricingLemmas

/-- C5 (amended): the booking controller's total price is the rounded sum
over rooms of the weekend-only rate times the nights — the 1.30 peak-season
factor is not applied on the booking path; `BookingService.calculateTotalPrice`
(which the booking controller does not call) is the rounded sum of the
fully surcharged spec rate times the nights, and on a 2-night Saturday
check-in in December 20-31 it prices each room at
`baseRate * 1.20 * 1.30 * 2`. -/
theorem claim_pricing_characterization :
    (∀ (rooms : List HRoom) (ci : HDate) (nights : Int),
        bookRoomsPrice rooms ci nights =
          roundTo2 ((rooms.map fun r =>
            (r.basePrice * if ci.dow = 5 ∨ ci.dow = 6 then 6 / 5 else 1) *
              (nights : ℚ)).sum)) ∧
    (∀ (rooms : List HRoom) (ci co : HDate),
        calculateTotalPrice rooms ci co =
          roundTo2 ((rooms.map fun r =>
            specPerNight r.basePrice ci * ((co.days - ci.days : Int) : ℚ)).sum)) ∧
    (∀ (r : HRoom) (ci co : HDate), ci.dow = 6 → ci.month = 11 →
        20 ≤ ci.dayOfMonth → co.days - ci.days = 2 →
        calculateTotalPrice [r] ci co =
          roundTo2 (r.basePrice * (6 / 5) * (13 / 10) * 2)) := by
  refine ⟨?_, ?_, ?_⟩
  · intro rooms ci nights
    unfold bookRoomsPrice
    rw [foldl_add_sum, zero_add]
    congr 1
    congr 1
    exact List.map_congr_left fun r _ => by
      unfold controllerPerNight
      split_ifs <;> ring
  · intro rooms ci co
    unfold calculateTotalPrice
    rw [foldl_add_sum, zero_add]
    congr 1
    congr 1
    exact List.map_congr_left fun r _ => by rw [servicePerNight_eq_spec]
  · intro r ci co hdow hmon hday hn
    unfold calculateTotalPrice
    rw [foldl_add_sum, zero_add]
    simp only [List.map_cons, List.map_nil, List.sum_cons, List.sum_nil, add_zero]
    rw [servicePerNight_eq_spec, hn]
    unfold specPerNight
    rw [if_pos (Or.inr hdow), if_pos (Or.inl ⟨hmon, hday⟩)]
    congr 1
    try push_cast
    try ring

/-- C5 counterexample: at the Saturday, December 25 check-in the booking
controller prices a 2-night stay of room 101 (base 100) at 240, not at the
claimed `100 * 1.20 * 1.30 * 2 = 312`. -/
theorem claim_pricing_cex :
    bookRoomsPrice [room101] dateSatDec25 2 = 240 ∧
    roundTo2 ((100 : ℚ) * (6 / 5) * (13 / 10) * 2) = 312 ∧
    bookRoomsPrice [room101] dateSatDec25 2 ≠
      roundTo2 ((100 : ℚ) * (6 / 5) * (13 / 10) * 2) := by
  have harg : (0 : ℚ) + controllerPerNight room101 dateSatDec25 * ((2 : Int) : ℚ) = 240 := by
    unfold controllerPerNight
    norm_num [room101, dateSatDec25]
  have h240 : bookRoomsPrice [room101] dateSatDec25 2 = 240 := by
    unfold bookRoomsPrice
    rw [List.foldl_cons, List.foldl_nil, harg]
    unfold roundTo2
    norm_num [Int.floor_eq_iff]
  have h312 : roundTo2 ((100 : ℚ) * (6 / 5) * (13 / 10) * 2) = 312 := by
    unfold roundTo2
    norm_num [Int.floor_eq_iff]
  refine ⟨h240, h312, ?_⟩
  rw [h240, h312]
  norm_num

/-- C6 (amended): the booking path's validation passes exactly when the
room count is in 1..5, the check-in is not before today and the check-out
is after the check-in — no stay-length cap is applied; the 30-night bound
exists only in `Helpers.isValidDateRange`, which bounds the nights by its
`maxNights` argument but is called from no booking route. -/
theorem claim_validation_characterization :
    (∀ (numRooms : Nat) (ci co today : Int),
        validateBookingInput numRooms ci co today = none ↔
          1 ≤ numRooms ∧ numRooms ≤ 5 ∧ today ≤ ci ∧ ci < co) ∧
    (∀ s e today minN maxN : Int,
        isValidDateRange s e today minN maxN = true ↔
          today ≤ s ∧ s < e ∧ minN ≤ e - s ∧ e - s ≤ maxN) := by
  constructor
  · intro n ci co today
    unfold validateBookingInput
    split_ifs with h1 h2 h3 <;> simp <;> omega
  · intro s e today minN maxN
    unfold isValidDateRange
    split_ifs with h1 h2 <;> simp <;> omega

/-- C6 counterexample: a 40-night request (days 0 to 40) passes validation
and `bookRooms` creates a booking for it, although the claim requires any
stay over 30 nights to be rejected. -/
theorem claim_validation_cex :
    dateForty.days - dateOrigin.days = 40 ∧
    validateBookingInput 1 dateOrigin.days dateForty.days 0 = none ∧
    (bookRooms stateOneRoom 7 1 dateOrigin dateForty 0 1).2 =
      BookOutcome.ok ⟨1, 7, [101], 1, 0,
        bookRoomsPrice [room101] dateOrigin 40, 0, 40, BStatus.confirmed,
        PayStatus.pending⟩ :=
  ⟨by decide, by decide, rfl⟩

/-- Room 101 while booked (`isAvailable = false`). -/
def room101Booked : HRoom := ⟨101, 1, 1, 100, false⟩

/-- Room 102 while booked (`isAvailable = false`). -/
def room102Booked : HRoom := ⟨102, 1, 2, 100, false⟩

/-- A confirmed booking of room 101 whose check-in (day −5) already passed
relative to day 0. -/
def bookingOld : HBooking :=
  ⟨1, 7, [101], 1, 0, 100, -5, -2, BStatus.confirmed, PayStatus.pending⟩

/-- A state holding that past booking and its booked room. -/
def statePast : HState := ⟨[room101Booked], [bookingOld]⟩

/-- A second confirmed booking (user 8, room 102, days [100, 110)). -/
def bookingOther : HBooking :=
  ⟨2, 8, [102], 1, 0, 100, 100, 110, BStatus.confirmed, PayStatus.pending⟩

/-- A state with two confirmed bookings on distinct rooms. -/
def stateTwo : HState :=
  ⟨[room101Booked, room102Booked], [bookingPast, bookingOther]⟩

/-- C7 (amended): `cancelBooking` never consults the check-in date: any
booking found for the id/user pair that is not already cancelled — even one
whose check-in lies before today — is transitioned to `'cancelled'` and its
rooms are marked available again; only a missing or already-cancelled
booking is rejected. -/
theorem claim_cancel_ignores_checkin (st : HState) (id uid : Nat)
    (b : HBooking) (today : Int)
    (hfind : st.bookings.find?
      (fun x => x.bookingId == id && x.userId == uid) = some b)
    (hst : ¬ b.status = BStatus.cancelled)
    (hpast : b.checkIn < today) :
    (cancelBooking st id uid).2 = CancelOutcome.success ∧
    { b with status := BStatus.cancelled } ∈ (cancelBooking st id uid).1.bookings ∧
    ∀ r ∈ st.rooms, r.number ∈ b.rooms →
      { r with isAvailable := true } ∈ (cancelBooking st id uid).1.rooms := by
  have hb : b ∈ st.bookings := List.mem_of_find?_eq_some hfind
  have hpred : (b.bookingId == id && b.userId == uid) = true := by
    simpa using List.find?_some hfind
  unfold cancelBooking
  rw [hfind]
  simp only [if_neg hst]
  refine ⟨by trivial, ?_, ?_⟩
  · have hfb : ({ b with status := BStatus.cancelled }) =
        (fun x => if x.bookingId == id && x.userId == uid then
          { x with status := BStatus.cancelled } else x) b := by
      simp [hpred]
    rw [hfb]
    exact List.mem_map_of_mem _ hb
  · intro r hr hnum
    have hfr : ({ r with isAvailable := true }) =
        (fun r => if r.number ∈ b.rooms then
          { r with isAvailable := true } else r) r := by
      simp [hnum]
    rw [hfr]
    exact List.mem_map_of_mem _ hr

/-- C7 witness: cancelling the past-check-in booking of `statePast`
succeeds. -/
theorem claim_cancel_ignores_checkin_witness :
    (cancelBooking statePast 1 7).2 = CancelOutcome.success :=
  (claim_cancel_ignores_checkin statePast 1 7 bookingOld 0 (by decide)
    (by decide) (by decide)).1

/-- C7 counterexample: the booking with check-in at day −5 (before day 0)
is cancelled anyway — its status becomes `'cancelled'` and its room is
released. -/
theorem claim_cancel_past_cex :
    bookingOld.checkIn < 0 ∧
    (cancelBooking statePast 1 7).2 = CancelOutcome.success ∧
    { bookingOld with status := BStatus.cancelled } ∈
      (cancelBooking statePast 1 7).1.bookings ∧
    { room101Booked with isAvailable := true } ∈
      (cancelBooking statePast 1 7).1.rooms := by
  decide

/-- C8: cancelling a confirmed booking changes only that booking's status
(to `'cancelled'`) and the availability flag of its own rooms; every other
booking row and every unreferenced room keeps its value and position, and a
cancelled booking's room reappears in the availability computation's free
set for the booking's former date range whenever no other confirmed booking
blocks it. -/
theorem claim_cancel_frame (st : HState) (id uid : Nat) (b : HBooking)
    (hfind : st.bookings.find?
      (fun x => x.bookingId == id && x.userId == uid) = some b)
    (hconf : b.status = BStatus.confirmed)
    (huniq : ∀ x ∈ st.bookings, x.bookingId = id → x.userId = uid → x = b) :
    (cancelBooking st id uid).2 = CancelOutcome.success ∧
    (cancelBooking st id uid).1.bookings.length = st.bookings.length ∧
    (∀ (i : Nat) (x : HBooking), st.bookings[i]? = some x → x ≠ b →
        (cancelBooking st id uid).1.bookings[i]? = some x) ∧
    (∀ i : Nat, st.bookings[i]? = some b →
        (cancelBooking st id uid).1.bookings[i]? =
          some { b with status := BStatus.cancelled }) ∧
    (cancelBooking st id uid).1.rooms.length = st.rooms.length ∧
    (∀ (i : Nat) (r : HRoom), st.rooms[i]? = some r → r.number ∉ b.rooms →
        (cancelBooking st id uid).1.rooms[i]? = some r) ∧
    (∀ (i : Nat) (r : HRoom), st.rooms[i]? = some r → r.number ∈ b.rooms →
        (cancelBooking st id uid).1.rooms[i]? =
          some { r with isAvailable := true }) ∧
    (∀ r ∈ st.rooms, r.number ∈ b.rooms →
      (∀ b' ∈ st.bookings, b' ≠ b →
        ¬(b'.status = BStatus.confirmed ∧ r.number ∈ b'.rooms ∧
            b'.checkIn ≤ b.checkOut ∧ b.checkIn ≤ b'.checkOut)) →
      { r with isAvailable := true } ∈
        trulyAvailableRooms (cancelBooking st id uid).1.rooms
          (cancelBooking st id uid).1.bookings b.checkIn b.checkOut) := by
  have hpred : (b.bookingId == id && b.userId == uid) = true := by
    simpa using List.find?_some hfind
  have hpredP : b.bookingId = id ∧ b.userId = uid := by
    simpa [Bool.and_eq_true, beq_iff_eq] using hpred
  have hst : ¬ b.status = BStatus.cancelled := by
    rw [hconf]; intro h; cases h
  have hself : ∀ x ∈ st.bookings,
      (x.bookingId == id && x.userId == uid) = true → x = b := by
    intro x hx hp
    have hp' : x.bookingId = id ∧ x.userId = uid := by
      simpa [Bool.and_eq_true, beq_iff_eq] using hp
    exact huniq x hx hp'.1 hp'.2
  unfold cancelBooking
  rw [hfind]
  simp only [if_neg hst]
  refine ⟨by trivial, by simp, ?_, ?_, by simp, ?_, ?_, ?_⟩
  · intro i x hx hne
    rw [List.getElem?_map, hx, Option.map_some']
    have : ¬ (x.bookingId == id && x.userId == uid) = true := by
      intro hp
      exact hne (hself x (List.getElem?_mem hx) hp)
    simp [this]
  · intro i hx
    rw [List.getElem?_map, hx, Option.map_some']
    simp [hpred]
  · intro i r hr hnum
    rw [List.getElem?_map, hr, Option.map_some']
    simp [hnum]
  · intro i r hr hnum
    rw [List.getElem?_map, hr, Option.map_some']
    simp [hnum]
  · intro r hr hnum hblock
    rw [mem_trulyAvailableRooms]
    refine ⟨?_, rfl, ?_⟩
    · have hfr : ({ r with isAvailable := true }) =
          (fun r => if r.number ∈ b.rooms then
            { r with isAvailable := true } else r) r := by
        simp [hnum]
      rw [hfr]
      exact List.mem_map_of_mem _ hr
    · intro b'' hb'' hstat hle hge
      rcases List.mem_map.mp hb'' with ⟨x, hx, hxe⟩
      by_cases hp : (x.bookingId == id && x.userId == uid) = true
      · exfalso
        rw [← hxe] at hstat
        simp only [if_pos hp] at hstat
        cases hstat
      · have hxe' : b'' = x := by rw [← hxe]; simp [hp]
        subst hxe'
        have hxb : b'' ≠ b := by
          intro hc
          subst hc
          exact hp hpred
        intro hroom
        exact hblock b'' hx hxb ⟨hstat, hroom, hle, hge⟩

/-- C8 witness: after cancelling booking 1 of `stateTwo`, its room 101
reappears in the free set for the booking's former range [10, 20). -/
theorem claim_cancel_frame_witness :
    { room101Booked with isAvailable := true } ∈
      trulyAvailableRooms (cancelBooking stateTwo 1 7).1.rooms
        (cancelBooking stateTwo 1 7).1.bookings 10 20 :=
  (claim_cancel_frame stateTwo 1 7 bookingPast (by decide) (by decide)
      (by decide)).2.2.2.2.2.2.2 room101Booked (by decide) (by decide)
    (by decide)

/-- The booking `bookRooms` creates for a 2-night request on `stateOneRoom`
(day 0 to day 2). -/
def bkShort : HBooking :=
  ⟨1, 7, [101], 1, 0, bookRoomsPrice [room101] dateOrigin 2, 0, 2,
    BStatus.confirmed, PayStatus.pending⟩

/-- C10: every booking a successful `bookRooms` call persists has status
`'confirmed'` and payment status `'pending'`, and the only booking the call
adds is the returned one — so a newly created booking is never in booking
status `'pending'`. -/
theorem claim_booking_created_confirmed (st : HState) (uid n : Nat)
    (ci co : HDate) (today : Int) (newId : Nat) (st' : HState) (bk : HBooking)
    (h : bookRooms st uid n ci co today newId = (st', BookOutcome.ok bk)) :
    bk.status = BStatus.confirmed ∧ bk.payStatus = PayStatus.pending ∧
    bk ∈ st'.bookings ∧
    ∀ b ∈ st'.bookings, b ∈ st.bookings ∨ b = bk := by
  unfold bookRooms at h
  split at h
  · simp [Prod.mk.injEq] at h
  · split at h
    · simp [Prod.mk.injEq] at h
    · split at h
      · simp [Prod.mk.injEq] at h
      · rw [Prod.mk.injEq] at h
        obtain ⟨hst, hbk⟩ := h
        rw [BookOutcome.ok.injEq] at hbk
        subst hbk
        subst hst
        refine ⟨rfl, rfl, ?_, ?_⟩
        · simp
        · intro b hb
          simp only [List.mem_append, List.mem_singleton] at hb
          exact hb

/-- C10 witness: the 2-night booking on `stateOneRoom` is created with
status confirmed and payment status pending, and it is the only booking the
call adds. -/
theorem claim_booking_created_confirmed_witness :
    bkShort.status = BStatus.confirmed ∧ bkShort.payStatus = PayStatus.pending ∧
    bkShort ∈ (bookRooms stateOneRoom 7 1 dateOrigin dateTwo 0 1).1.bookings ∧
    ∀ b ∈ (bookRooms stateOneRoom 7 1 dateOrigin dateTwo 0 1).1.bookings,
      b ∈ stateOneRoom.bookings ∨ b = bkShort :=
  claim_booking_created_confirmed stateOneRoom 7 1 dateOrigin dateTwo 0 1
    (bookRooms stateOneRoom 7 1 dateOrigin dateTwo 0 1).1 bkShort rfl

/-- C3: when the floor groups are ascending by floor, uniform within a
group and position-sorted, and some group holds at least `n` rooms (with
`n` in 1..5), the selection resolves on the same-floor pass: the result is
a width-`n` window of the first (lowest-floor) group holding `n` rooms,
with minimal position span among that group's windows, and no group on a
higher floor is consulted even if it were cheaper. -/
theorem claim_sameFloor_selection (byFloor : List (List HRoom)) (n : Nat)
    (hn1 : 1 ≤ n) (hn5 : n ≤ 5)
    (hfl : ∀ g ∈ byFloor, ∀ r ∈ g, ∀ s ∈ g, r.floor = s.floor)
    (hasc : byFloor.Pairwise fun g h => ∀ r ∈ g, ∀ s ∈ h, r.floor < s.floor)
    (hsort : ∀ g ∈ byFloor, g.Pairwise fun r s => r.position ≤ s.position)
    (hex : ∃ g ∈ byFloor, n ≤ g.length) :
    ∃ res g i,
      findOptimalRooms byFloor n = some res ∧
      res.strategy = "same_floor" ∧
      g ∈ byFloor ∧ n ≤ g.length ∧
      res.rooms = (g.drop i).take n ∧ i + n ≤ g.length ∧
      res.rooms.length = n ∧
      (∀ r ∈ res.rooms, r ∈ g) ∧
      (∀ r ∈ res.rooms, ∀ s ∈ res.rooms, r.floor = s.floor) ∧
      (∀ j, j + n ≤ g.length → posSpan res.rooms ≤ posSpan ((g.drop j).take n)) ∧
      (∀ g' ∈ byFloor, n ≤ g'.length →
        ∀ r ∈ res.rooms, ∀ s ∈ g', r.floor ≤ s.floor) := by
  obtain ⟨pre, g, post, comb, heq, hpre, hg, hfb, hsp⟩ := sameFloorPass_spec byFloor n hex
  obtain ⟨i, hsome, hi, hmin⟩ := findBestOnSingleFloor_spec hg
  have hcomb : comb = (g.drop i).take n := by
    rw [hfb] at hsome
    exact Option.some.inj hsome
  subst hcomb
  have hgmem : g ∈ byFloor := by
    rw [heq]
    exact List.mem_append_right _ (List.mem_cons_self _ _)
  have hwlen : ((g.drop i).take n).length = n := window_length hi
  have hwsub : ∀ r ∈ (g.drop i).take n, r ∈ g := window_subset
  have hwne : (g.drop i).take n ≠ [] := by
    intro hc
    rw [hc] at hwlen
    simp at hwlen
    omega
  refine ⟨⟨(g.drop i).take n, calculateTravelTime ((g.drop i).take n),
    headFloors ((g.drop i).take n), "same_floor"⟩, g, i, ?_, rfl, hgmem, hg,
    rfl, hi, hwlen, hwsub, ?_, ?_, ?_⟩
  · unfold findOptimalRooms
    rw [hsp]
  · intro r hr s hs
    exact hfl g hgmem r (hwsub r hr) s (hwsub s hs)
  · intro j hj
    have hwjlen : ((g.drop j).take n).length = n := window_length hj
    have hwjne : (g.drop j).take n ≠ [] := by
      intro hc
      rw [hc] at hwjlen
      simp at hwjlen
      omega
    have hgne : g ≠ [] := by
      intro hc
      rw [hc] at hg
      simp at hg
      omega
    obtain ⟨gh, gt, hgeq⟩ := List.exists_cons_of_ne_nil hgne
    have hufl : ∀ r ∈ g, r.floor = gh.floor := fun r hr =>
      hfl g hgmem r hr gh (by rw [hgeq]; exact List.mem_cons_self _ _)
    have h1 := calculateTravelTime_uniform_floor hwne
      fun r hr => hufl r (hwsub r hr)
    have h2 := calculateTravelTime_uniform_floor hwjne
      fun r hr => hufl r (window_subset r hr)
    have h3 := hmin j hj
    rw [h1, h2] at h3
    linarith
  · intro g' hg' hlen' r hr s hs'
    have hcase : g' ∈ pre ∨ g' = g ∨ g' ∈ post := by
      rw [heq] at hg'
      simpa [List.mem_append, List.mem_cons] using hg'
    rcases hcase with h' | h' | h'
    · exact absurd hlen' (not_le.mpr (hpre g' h'))
    · subst h'
      exact le_of_eq (hfl g' hgmem r (hwsub r hr) s hs')
    · have hPW : List.Pairwise
          (fun g h => ∀ r ∈ g, ∀ s ∈ h, r.floor < s.floor) (g :: post) := by
        rw [heq] at hasc
        exact (List.pairwise_append.mp hasc).2.1
      exact le_of_lt ((List.pairwise_cons.mp hPW).1 g' h' r (hwsub r hr) s hs')

/-- C3 witness: with free rooms 101, 102 on floor 1 and 201, 202, 203 on
floor 2, a request for 2 rooms is answered from floor 1 alone. -/
theorem claim_sameFloor_selection_witness :
    ∃ res g i,
      findOptimalRooms [[room101, room102], [room201, room202, room203]] 2 =
        some res ∧
      res.strategy = "same_floor" ∧
      g ∈ [[room101, room102], [room201, room202, room203]] ∧ 2 ≤ g.length ∧
      res.rooms = (g.drop i).take 2 ∧ i + 2 ≤ g.length ∧
      res.rooms.length = 2 ∧
      (∀ r ∈ res.rooms, r ∈ g) ∧
      (∀ r ∈ res.rooms, ∀ s ∈ res.rooms, r.floor = s.floor) ∧
      (∀ j, j + 2 ≤ g.length → posSpan res.rooms ≤ posSpan ((g.drop j).take 2)) ∧
      (∀ g' ∈ [[room101, room102], [room201, room202, room203]], 2 ≤ g'.length →
        ∀ r ∈ res.rooms, ∀ s ∈ g', r.floor ≤ s.floor) :=
  claim_sameFloor_selection [[room101, room102], [room201, room202, room203]] 2
    (by decide) (by decide) (by decide) (by decide) (by decide) (by decide)
